import Mathlib

/-!
Verification of the Town Square chat relay core (src/app.py).

The development shallowly embeds the Python source:

* `sanitize` models `sanitize` (app.py:199-201): `(s or "").strip()[:200]`.
* `ConnectionManager.key / connect / disconnect / broadcast` model the
  `ConnectionManager` class (app.py:152-184).  The room dictionary
  `self.rooms : Dict[str, List[WebSocket]]` becomes a function
  `Rooms := Key → Option (List Conn)`; a Python dict key being absent is
  `none`.  WebSocket handles are opaque comparable values, modelled as `Nat`.
* `db_save / db_recent` model the SQLite helpers (app.py:106-137); the table
  is a list of rows in insertion order, and the side effect of the pruning
  `DELETE` is returned as the second component of `db_recent`.
* `ws_square_join / ws_square_typing / ws_square_chat / ws_square_disconnect`
  model the four branches of the websocket handler `ws_square`
  (app.py:282-347), together with the global `room_users` presence dict
  (app.py:147).  Delivery failure of `ws.send_json` is modelled by a
  predicate `fail : Conn → Bool`: sending to `c` raises iff `fail c`.
-/

/-- Connections are opaque comparable handles (WebSocket objects in the
source); modelled as naturals. -/
abbrev Conn := Nat

/-- Room keys are the strings `f"{room.lower()}::{circle.lower()}"`. -/
abbrev Key := String

/-- `self.rooms` of `ConnectionManager` (app.py:157): a dict from key to the
list of sockets; `none` models key absence. -/
abbrev Rooms := Key → Option (List Conn)

/-- Pointwise dict update: `m[k] = v` (or `del m[k]` when `v = none`). -/
def updMap {α : Type} (m : Key → Option α) (k : Key) (v : Option α) :
    Key → Option α :=
  fun k2 => if k2 = k then v else m k2

/-- The empty dict. -/
def emptyRooms : Rooms := fun _ => none

/-- Python `str.lower()` restricted to the ASCII range used by room and
circle identifiers. -/
def lowerStr (s : String) : String := ⟨s.data.map Char.toLower⟩

/-- The whitespace characters removed by Python `str.strip()` (ASCII part:
space, tab, newline, vertical tab, form feed, carriage return). -/
def isPySpace (c : Char) : Bool :=
  c == ' ' || c == '\t' || c == '\n' || c == '\x0b' || c == '\x0c' || c == '\r'

/-- Python `s.strip()`: drop whitespace from both ends. -/
def pyStrip (l : List Char) : List Char :=
  (l.dropWhile isPySpace).rdropWhile isPySpace

/-- `sanitize` (app.py:199-201): `return (s or "").strip()[:200]`.  For a
string argument, `s or ""` equals `s` (the `or ""` only replaces `None`,
and an empty `s` is left empty either way), so the model strips and then
truncates to 200 characters. -/
def sanitize (s : String) : String := ⟨(pyStrip s.data).take 200⟩

namespace ConnectionManager

/-- `ConnectionManager.key` (app.py:159-160): `f"{room.lower()}::{circle.lower()}"`. -/
def key (room circle : String) : Key :=
  lowerStr room ++ "::" ++ lowerStr circle

/-- `ConnectionManager.connect` (app.py:162-165):
`self.rooms.setdefault(k, []).append(websocket)` (the transport `accept` has
no registry effect). -/
def connect (rm : Rooms) (room circle : String) (c : Conn) : Rooms :=
  let k := key room circle
  updMap rm k (some ((rm k).getD [] ++ [c]))

/-- `ConnectionManager.disconnect` (app.py:167-172): remove the first
occurrence of the socket if present, and pop the key once its list is
empty. -/
def disconnect (rm : Rooms) (room circle : String) (c : Conn) : Rooms :=
  let k := key room circle
  match rm k with
  | none => rm
  | some l =>
    if c ∈ l then
      let l2 := l.erase c
      if l2 = [] then updMap rm k none else updMap rm k (some l2)
    else rm

/-- `ConnectionManager.broadcast` (app.py:174-184): attempt `send_json` to
every member (a send to `c` raises iff `fail c`), collect the dead sockets,
then disconnect each of them.  Returns the list of members that received
the message, and the registry after eviction. -/
def broadcast (rm : Rooms) (room circle : String) (fail : Conn → Bool) :
    List Conn × Rooms :=
  let k := key room circle
  let members := (rm k).getD []
  let dead := members.filter fail
  let delivered := members.filter (fun c => !fail c)
  (delivered, dead.foldl (fun m c => disconnect m room circle c) rm)

end ConnectionManager

/-- One `register`/`deregister` call against the Room Registry. -/
inductive RegOp where
  | reg (room circle : String) (c : Conn)
  | dereg (room circle : String) (c : Conn)

/-- Apply one registry operation. -/
def applyRegOp (rm : Rooms) : RegOp → Rooms
  | .reg ro ci c => ConnectionManager.connect rm ro ci c
  | .dereg ro ci c => ConnectionManager.disconnect rm ro ci c

/-- Run a sequence of registry operations from the empty registry. -/
def runRegOps (ops : List RegOp) : Rooms :=
  ops.foldl applyRegOp emptyRooms

/-- No key of the registry maps to an empty member list. -/
def NoEmptyRooms (rm : Rooms) : Prop := ∀ k, rm k ≠ some []

lemma noEmpty_connect {rm : Rooms} (room circle : String) (c : Conn)
    (h : NoEmptyRooms rm) :
    NoEmptyRooms (ConnectionManager.connect rm room circle c) := by
  intro k2
  unfold ConnectionManager.connect updMap
  by_cases hk : k2 = ConnectionManager.key room circle
  · simp [hk]
  · simpa [hk] using h k2

lemma noEmpty_disconnect {rm : Rooms} (room circle : String) (c : Conn)
    (h : NoEmptyRooms rm) :
    NoEmptyRooms (ConnectionManager.disconnect rm room circle c) := by
  intro k2
  unfold ConnectionManager.disconnect
  cases hrk : rm (ConnectionManager.key room circle) with
  | none => exact h k2
  | some l =>
    by_cases hc : c ∈ l
    · simp only [hc, if_true]
      by_cases hl2 : l.erase c = []
      · simp only [hl2, if_true]
        unfold updMap
        by_cases hk : k2 = ConnectionManager.key room circle
        · simp [hk]
        · simpa [hk] using h k2
      · simp only [hl2, if_false]
        unfold updMap
        by_cases hk : k2 = ConnectionManager.key room circle
        · simp [hk, hl2]
        · simpa [hk] using h k2
    · simp only [hc, if_false]
      exact h k2

lemma noEmpty_foldl (ops : List RegOp) :
    ∀ rm : Rooms, NoEmptyRooms rm → NoEmptyRooms (ops.foldl applyRegOp rm) := by
  induction ops with
  | nil => intro rm h; simpa using h
  | cons op rest ih =>
    intro rm h
    simp only [List.foldl_cons]
    apply ih
    cases op with
    | reg room circle c => exact noEmpty_connect room circle c h
    | dereg room circle c => exact noEmpty_disconnect room circle c h

lemma noEmpty_runRegOps (ops : List RegOp) : NoEmptyRooms (runRegOps ops) := by
  apply noEmpty_foldl
  intro k
  simp [emptyRooms]

/-- C5: after any sequence of register/deregister calls from the empty
registry, a key is present in the registry iff its member list is
non-empty: no key ever maps to an empty member list. -/
theorem registry_key_iff_nonempty (ops : List RegOp) (k : Key) :
    ((runRegOps ops) k).isSome = true ↔ ((runRegOps ops) k).getD [] ≠ [] := by
  have h := noEmpty_runRegOps ops k
  cases hk : (runRegOps ops) k with
  | none => simp
  | some l =>
    rw [hk] at h
    simp only [Option.isSome_some, Option.getD_some, true_iff]
    intro hl
    exact h (by rw [hl])

/-- C1 (counterexample): registering the same connection twice for the same
key duplicates it in the member list — `connect` appends unconditionally,
so registration is not idempotent. -/
theorem connect_not_idempotent :
    (ConnectionManager.connect
        (ConnectionManager.connect emptyRooms "r" "c" 0) "r" "c" 0)
        (ConnectionManager.key "r" "c")
      ≠ (ConnectionManager.connect emptyRooms "r" "c" 0)
        (ConnectionManager.key "r" "c") := by
  decide

/-- C1 (amended): `connect` appends the connection to the member list
unconditionally, so registering `c` twice (with no intervening
deregistration) leaves the member list equal to the original list with two
copies of `c` appended — `c` is duplicated, registration is not idempotent
per connection. -/
theorem connect_twice_duplicates (rm : Rooms) (room circle : String) (c : Conn) :
    (ConnectionManager.connect
        (ConnectionManager.connect rm room circle c) room circle c)
        (ConnectionManager.key room circle)
      = some ((rm (ConnectionManager.key room circle)).getD [] ++ [c, c]) := by
  unfold ConnectionManager.connect updMap
  simp

lemma filter_length_partition {α : Type} (p : α → Bool) (l : List α) :
    (l.filter (fun a => !p a)).length + (l.filter p).length = l.length := by
  induction l with
  | nil => simp
  | cons a t ih =>
    by_cases hp : p a = true
    · rw [List.filter_cons_of_pos hp, List.filter_cons_of_neg (by simp [hp])]
      simp only [List.length_cons]
      omega
    · have hp2 : p a = false := eq_false_of_ne_true hp
      rw [List.filter_cons_of_neg hp, List.filter_cons_of_pos (by simp [hp2])]
      simp only [List.length_cons]
      omega

/-- Membership after one `disconnect` cannot appear from nowhere. -/
lemma notMem_disconnect (rm : Rooms) (room circle : String) (d c : Conn)
    (h : c ∉ (rm (ConnectionManager.key room circle)).getD []) :
    c ∉ ((ConnectionManager.disconnect rm room circle d)
        (ConnectionManager.key room circle)).getD [] := by
  unfold ConnectionManager.disconnect
  cases hrk : rm (ConnectionManager.key room circle) with
  | none =>
    show c ∉ (rm (ConnectionManager.key room circle)).getD []
    rw [hrk]
    simp
  | some l =>
    rw [hrk] at h
    simp only [Option.getD_some] at h
    by_cases hd : d ∈ l
    · simp only [hd, if_true]
      by_cases hl2 : l.erase d = []
      · simp [hl2, updMap]
      · simp only [hl2, if_false, updMap, if_pos rfl, Option.getD_some]
        intro hc
        exact h (List.Sublist.mem hc (List.erase_sublist d l))
    · simpa [hd, hrk] using h

lemma notMem_foldl_disconnect (room circle : String) (c : Conn) :
    ∀ (dead : List Conn) (rm : Rooms),
      c ∉ (rm (ConnectionManager.key room circle)).getD [] →
      c ∉ ((dead.foldl (fun m d => ConnectionManager.disconnect m room circle d) rm)
          (ConnectionManager.key room circle)).getD [] := by
  intro dead
  induction dead with
  | nil => intro rm h; simpa using h
  | cons d rest ih =>
    intro rm h
    simp only [List.foldl_cons]
    exact ih _ (notMem_disconnect rm room circle d c h)

/-- Core broadcast-eviction lemma: folding `disconnect` over the dead members
removes exactly the failing connections.  The member list is split as
`pre ++ l`, where `pre` holds already-visited non-failing members. -/
lemma foldl_disconnect_filter (room circle : String) (fail : Conn → Bool) :
    ∀ (l pre : List Conn) (rm : Rooms),
      (rm (ConnectionManager.key room circle)).getD [] = pre ++ l →
      (pre ++ l).Nodup →
      (∀ c ∈ pre, fail c = false) →
      (((l.filter fail).foldl
          (fun m c => ConnectionManager.disconnect m room circle c) rm)
            (ConnectionManager.key room circle)).getD []
        = (pre ++ l).filter (fun c => !fail c) := by
  intro l
  induction l with
  | nil =>
    intro pre rm hget hnd hpre
    simp only [List.filter_nil, List.foldl_nil, List.append_nil] at hget ⊢
    rw [hget]
    symm
    rw [List.filter_eq_self]
    intro a ha
    simp [hpre a ha]
  | cons a t ih =>
    intro pre rm hget hnd hpre
    by_cases hfa : fail a = true
    · rw [List.filter_cons_of_pos hfa]
      simp only [List.foldl_cons]
      have hne : pre ++ a :: t ≠ [] := by simp
      have hrk : rm (ConnectionManager.key room circle) = some (pre ++ a :: t) := by
        cases hx : rm (ConnectionManager.key room circle) with
        | none =>
          rw [hx] at hget
          simp only [Option.getD_none] at hget
          exact absurd hget.symm hne
        | some l2 =>
          rw [hx] at hget
          simp only [Option.getD_some] at hget
          rw [hget]
      have hanp : a ∉ pre := by
        rcases List.nodup_append.mp hnd with ⟨-, -, hdisj⟩
        intro hap
        exact hdisj hap (List.mem_cons_self a t)
      have herase : (pre ++ a :: t).erase a = pre ++ t := by
        rw [List.erase_append_right _ hanp, List.erase_cons_head]
      have hmem : a ∈ pre ++ a :: t := by simp
      have hstep : ((ConnectionManager.disconnect rm room circle a)
          (ConnectionManager.key room circle)).getD [] = pre ++ t := by
        unfold ConnectionManager.disconnect
        rw [hrk]
        simp only [hmem, if_true, herase]
        by_cases hpt : pre ++ t = []
        · simp [hpt, updMap]
        · simp [hpt, updMap]
      have hnd2 : (pre ++ t).Nodup := by
        refine List.Sublist.nodup ?_ hnd
        exact List.Sublist.append_left (List.sublist_cons_self a t) pre
      have := ih pre (ConnectionManager.disconnect rm room circle a) hstep hnd2 hpre
      rw [this]
      rw [List.filter_append, List.filter_append,
        List.filter_cons_of_neg (by simp [hfa])]
    · have hfa2 : fail a = false := eq_false_of_ne_true hfa
      rw [List.filter_cons_of_neg (by simp [hfa2])]
      have hget2 : (rm (ConnectionManager.key room circle)).getD []
          = (pre ++ [a]) ++ t := by
        rw [hget]; simp
      have hnd2 : ((pre ++ [a]) ++ t).Nodup := by
        simpa [List.append_assoc] using hnd
      have hpre2 : ∀ c ∈ pre ++ [a], fail c = false := by
        intro c hc
        rcases List.mem_append.mp hc with hcp | hca
        · exact hpre c hcp
        · simp only [List.mem_singleton] at hca
          rw [hca]; exact hfa2
      have := ih (pre ++ [a]) rm hget2 hnd2 hpre2
      rw [this]
      simp [List.append_assoc]

/-- C4: broadcasting to a key whose member list holds `N` distinct
connections, `M` of which fail delivery, delivers to exactly the `N − M`
non-failing connections (a failure never prevents an attempt on the
others), and afterwards exactly the failing connections are gone from the
registry's member list for that key. -/
theorem broadcast_delivers_and_evicts (rm : Rooms) (room circle : String)
    (fail : Conn → Bool)
    (hnd : ((rm (ConnectionManager.key room circle)).getD []).Nodup) :
    (ConnectionManager.broadcast rm room circle fail).1
        = ((rm (ConnectionManager.key room circle)).getD []).filter (fun c => !fail c)
    ∧ (ConnectionManager.broadcast rm room circle fail).1.length
        + (((rm (ConnectionManager.key room circle)).getD []).filter fail).length
        = ((rm (ConnectionManager.key room circle)).getD []).length
    ∧ (((ConnectionManager.broadcast rm room circle fail).2
          (ConnectionManager.key room circle)).getD [])
        = ((rm (ConnectionManager.key room circle)).getD []).filter (fun c => !fail c)
    ∧ (∀ c ∈ (rm (ConnectionManager.key room circle)).getD [],
          fail c = false → c ∈ (ConnectionManager.broadcast rm room circle fail).1)
    ∧ (∀ c ∈ (rm (ConnectionManager.key room circle)).getD [],
          fail c = true →
            c ∉ (((ConnectionManager.broadcast rm room circle fail).2
                (ConnectionManager.key room circle)).getD [])) := by
  have hfold := foldl_disconnect_filter room circle fail
    ((rm (ConnectionManager.key room circle)).getD []) [] rm (by simp) (by simpa) (by simp)
  refine ⟨rfl, ?_, ?_, ?_, ?_⟩
  · exact filter_length_partition fail _
  · simpa [ConnectionManager.broadcast] using hfold
  · intro c hc hf
    simp only [ConnectionManager.broadcast]
    exact List.mem_filter.mpr ⟨hc, by simp [hf]⟩
  · intro c hc hf
    have h2 : (((ConnectionManager.broadcast rm room circle fail).2
        (ConnectionManager.key room circle)).getD [])
        = ((rm (ConnectionManager.key room circle)).getD []).filter (fun c => !fail c) := by
      simpa [ConnectionManager.broadcast] using hfold
    rw [h2]
    intro hmem
    have := (List.mem_filter.mp hmem).2
    simp [hf] at this

/-- Concrete registry used by the broadcast witness: one room with three
distinct members. -/
def rmW : Rooms := updMap emptyRooms (ConnectionManager.key "r" "c") (some [0, 1, 2])

/-- C4 witness: with members `[0, 1, 2]` and delivery failing exactly for
connection `1`, connections `0` and `2` receive the message and `1` is
evicted. -/
theorem broadcast_delivers_and_evicts_witness :
    ((rmW (ConnectionManager.key "r" "c")).getD []).Nodup
    ∧ (ConnectionManager.broadcast rmW "r" "c" (fun c => c == 1)).1
        = ((rmW (ConnectionManager.key "r" "c")).getD []).filter (fun c => !(c == 1)) :=
  ⟨by decide, (broadcast_delivers_and_evicts rmW "r" "c" (fun c => c == 1) (by decide)).1⟩

lemma head?_take_pos {α : Type} (l : List α) (n : Nat) (hn : 0 < n) :
    (l.take n).head? = l.head? := by
  cases l with
  | nil => simp
  | cons a t =>
    cases n with
    | zero => exact absurd hn (lt_irrefl 0)
    | succ m => simp [List.take_succ_cons]

lemma isPrefix_head?_eq {α : Type} {m l : List α} (h : m <+: l) (hm : m ≠ []) :
    m.head? = l.head? := by
  obtain ⟨t, rfl⟩ := h
  exact (List.head?_append_of_ne_nil m hm).symm

lemma dropWhile_head?_false {α : Type} (p : α → Bool) (l : List α) {c : α}
    (h : (l.dropWhile p).head? = some c) : p c = false := by
  have h2 := List.head?_dropWhile_not p l
  rw [h] at h2
  exact h2

lemma dropWhile_eq_self_of_head? {α : Type} (p : α → Bool) (l : List α)
    (h : ∀ c, l.head? = some c → p c = false) : l.dropWhile p = l := by
  cases l with
  | nil => simp
  | cons a t =>
    have ha := h a (by simp)
    simp [List.dropWhile_cons, ha]

lemma pyStrip_head?_false (l : List Char) {c : Char}
    (h : (pyStrip l).head? = some c) : isPySpace c = false := by
  have hpre := List.rdropWhile_prefix isPySpace (l.dropWhile isPySpace)
  have hne : (l.dropWhile isPySpace).rdropWhile isPySpace ≠ [] := by
    intro h0
    unfold pyStrip at h
    rw [h0] at h
    simp at h
  have heq := isPrefix_head?_eq hpre hne
  exact dropWhile_head?_false isPySpace l (heq.symm.trans h)

lemma pyStrip_idem (l : List Char) : pyStrip (pyStrip l) = pyStrip l := by
  have hdrop : (pyStrip l).dropWhile isPySpace = pyStrip l :=
    dropWhile_eq_self_of_head? _ _ (fun _ hc => pyStrip_head?_false l hc)
  calc pyStrip (pyStrip l)
      = ((pyStrip l).dropWhile isPySpace).rdropWhile isPySpace := rfl
    _ = (pyStrip l).rdropWhile isPySpace := by rw [hdrop]
    _ = pyStrip l :=
        List.rdropWhile_idempotent isPySpace (l.dropWhile isPySpace)

lemma rdropWhile_getLast?_false {α : Type} (p : α → Bool) (l : List α) {c : α}
    (h : (l.rdropWhile p).getLast? = some c) : p c = false := by
  have hne : l.rdropWhile p ≠ [] := by
    intro h0
    rw [h0] at h
    simp at h
  have h2 := List.rdropWhile_last_not p l hne
  rw [List.getLast?_eq_getLast _ hne, Option.some_inj] at h
  rw [← h]
  exact eq_false_of_ne_true h2

/-- C3 (counterexample input): `"a"` followed by 201 spaces and `"b"`. -/
def c3bad : String := ⟨'a' :: (List.replicate 201 ' ' ++ ['b'])⟩

/-- C3 (counterexample): `sanitize` is not idempotent.  On `c3bad` the strip
removes nothing (both ends are non-whitespace) and the 200-character
truncation then cuts off `'b'`, exposing 199 trailing spaces, which a second
`sanitize` removes. -/
theorem sanitize_not_idempotent : sanitize (sanitize c3bad) ≠ sanitize c3bad := by
  decide

/-- C3 (amended): `sanitize` always returns at most 200 characters with no
leading whitespace; when the stripped input is at most 200 characters long
(so the truncation cuts nothing), `sanitize` is additionally idempotent and
its result also has no trailing whitespace.  Unconditional idempotence and
absence of trailing whitespace fail (`sanitize_not_idempotent`): truncation
after trimming can expose trailing whitespace. -/
theorem sanitize_length_trim (s : String) :
    (sanitize s).length ≤ 200
    ∧ (∀ c, (sanitize s).data.head? = some c → isPySpace c = false)
    ∧ ((pyStrip s.data).length ≤ 200 →
        sanitize (sanitize s) = sanitize s
        ∧ ∀ c, (sanitize s).data.getLast? = some c → isPySpace c = false) := by
  refine ⟨?_, ?_, ?_⟩
  · show ((pyStrip s.data).take 200).length ≤ 200
    rw [List.length_take]
    exact min_le_left _ _
  · intro c hc
    have h2 : (pyStrip s.data).head? = some c := by
      rw [← head?_take_pos (pyStrip s.data) 200 (by omega)]
      exact hc
    exact pyStrip_head?_false s.data h2
  · intro hlen
    have htake : (pyStrip s.data).take 200 = pyStrip s.data :=
      List.take_of_length_le hlen
    constructor
    · have hexp : sanitize (sanitize s)
          = ⟨(pyStrip ((pyStrip s.data).take 200)).take 200⟩ := rfl
      rw [hexp, htake, pyStrip_idem]
      rfl
    · intro c hc
      have hdata : (sanitize s).data = pyStrip s.data := htake
      rw [hdata] at hc
      exact rdropWhile_getLast?_false isPySpace (s.data.dropWhile isPySpace) hc

/-- C3 witness for the amended theorem: on `" hi "` the stripped input is
short, so idempotence applies. -/
theorem sanitize_length_trim_witness :
    (pyStrip (" hi ").data).length ≤ 200
    ∧ sanitize (sanitize " hi ") = sanitize " hi " :=
  ⟨by decide, ((sanitize_length_trim " hi ").2.2 (by decide)).1⟩

/-- One row of the `messages` table (app.py:88-99), in insertion order
(the autoincrement id is the list position). -/
structure HRec where
  room : String
  circle : String
  nick : String
  text : String
  ts : Int
deriving DecidableEq

/-- `db_save` (app.py:106-115): no-op when retention is disabled
(`RETENTION_HOURS <= 0`), otherwise `INSERT` appends a row. -/
def db_save (retention : Int) (st : List HRec)
    (room circle nick text : String) (ts : Int) : List HRec :=
  if retention ≤ 0 then st else st ++ [⟨room, circle, nick, text, ts⟩]

/-- `ORDER BY ts DESC`: newest first. -/
def tsDesc (a b : HRec) : Prop := b.ts ≤ a.ts

instance : DecidableRel tsDesc := fun a b => Int.decLe b.ts a.ts

instance : IsTotal HRec tsDesc := ⟨fun a b => le_total b.ts a.ts⟩

instance : IsTrans HRec tsDesc := ⟨fun _ _ _ hab hbc => le_trans hbc hab⟩

/-- `db_recent` (app.py:118-137): when retention is disabled return `[]`;
otherwise first `DELETE FROM messages WHERE ts < cutoff` for every key
(the prune is global), then `SELECT nick, text, ts` of the rows matching
`room`, `circle` and `ts >= cutoff`, newest first, truncated by `LIMIT`,
and finally reversed to oldest-first order.  The pair returned is
(rows delivered to the caller, table contents after the `DELETE`). -/
def db_recent (retention now : Int) (st : List HRec)
    (room circle : String) (limit : Nat) :
    List (String × String × Int) × List HRec :=
  if retention ≤ 0 then ([], st)
  else
    let cutoff := now - retention * 3600
    let st2 := st.filter (fun r => !decide (r.ts < cutoff))
    let rows := ((st2.filter (fun r =>
        r.room == room && r.circle == circle && decide (cutoff ≤ r.ts))).insertionSort
        tsDesc).take limit
    ((rows.map (fun r => (r.nick, r.text, r.ts))).reverse, st2)

/-- C8: with retention disabled (`RETENTION_HOURS = 0`), any sequence of
`record` calls persists nothing (each `db_save` is the identity on the
store) and `recent` always returns the empty sequence. -/
theorem retention_disabled_no_persistence
    (calls : List (String × String × String × String × Int)) (st : List HRec)
    (now : Int) (room circle : String) (limit : Nat) :
    calls.foldl
        (fun s a => db_save 0 s a.1 a.2.1 a.2.2.1 a.2.2.2.1 a.2.2.2.2) st = st
    ∧ (db_recent 0 now st room circle limit).1 = [] := by
  constructor
  · induction calls generalizing st with
    | nil => rfl
    | cons a rest ih =>
      simp only [List.foldl_cons]
      have : db_save 0 st a.1 a.2.1 a.2.2.1 a.2.2.2.1 a.2.2.2.2 = st := by
        simp [db_save]
      rw [this]
      exact ih st
  · simp [db_recent]

/-- Store for the C6 scenario at `t = 100000`: three records for the key
`("central", "music")` with timestamps `t - 3600*2`, `t - 10`, `t`. -/
def c6store : List HRec :=
  [⟨"central", "music", "ann", "old", 92800⟩,
   ⟨"central", "music", "bob", "hi", 99990⟩,
   ⟨"central", "music", "cat", "yo", 100000⟩]

/-- C6 (counterexample): at `t = 100000` with `retentionHours = 1`, the
cutoff is `t - 3600`, so the record at `t - 10` is also inside the window:
`recent` does not return only the record at `t`. -/
theorem db_recent_c6_cex :
    (db_recent 1 100000 c6store "central" "music" 50).1
      ≠ [("cat", "yo", (100000 : Int))] := by
  decide

/-- C6 (amended): with retention enabled at `retentionHours = 1` and records
at timestamps `t - 3600*2`, `t - 10`, `t`, evaluating `recent` at time `t`
returns the records at `t - 10` and `t` (oldest first) — both lie at or
above the cutoff `t - 3600` — and deletes the record at `t - 3600*2` from
storage as a side effect of the call. -/
theorem db_recent_c6_amended (t : Int) :
    (db_recent 1 t
        [⟨"central", "music", "ann", "old", t - 7200⟩,
         ⟨"central", "music", "bob", "hi", t - 10⟩,
         ⟨"central", "music", "cat", "yo", t⟩] "central" "music" 50).1
      = [("bob", "hi", t - 10), ("cat", "yo", t)]
    ∧ (db_recent 1 t
        [⟨"central", "music", "ann", "old", t - 7200⟩,
         ⟨"central", "music", "bob", "hi", t - 10⟩,
         ⟨"central", "music", "cat", "yo", t⟩] "central" "music" 50).2
      = [⟨"central", "music", "bob", "hi", t - 10⟩,
         ⟨"central", "music", "cat", "yo", t⟩] := by
  have h1 : ¬((1 : Int) ≤ 0) := by omega
  have ha : t - 7200 < t - 1 * 3600 := by omega
  have hb : ¬(t - 10 < t - 1 * 3600) := by omega
  have hc : ¬(t < t - 1 * 3600) := by omega
  have hd : t - 1 * 3600 ≤ t - 10 := by omega
  have he : t - 1 * 3600 ≤ t := by omega
  have hf : ¬(t ≤ t - 10) := by omega
  have hg : t ≤ t - 10 + 3600 := by omega
  have hh : t - 10 ≤ t := by omega
  constructor <;>
    simp [db_recent, h1, List.filter_cons, ha, hb, hc, hd, he, hf, hg, hh,
      List.insertionSort, List.orderedInsert, tsDesc]

/-- C7: with retention enabled, `recent` first deletes every stored record —
for any key, not only the requested one — whose timestamp is strictly below
the cutoff `now - retentionHours*3600`; it returns at most `limit` records,
each drawn from the store, matching the requested key with timestamp at or
above the cutoff, and ordered oldest first (they are selected newest first
internally and the list is reversed before being returned). -/
theorem db_recent_prunes_and_selects (retention now : Int) (st : List HRec)
    (room circle : String) (limit : Nat) (hret : 0 < retention) :
    (db_recent retention now st room circle limit).2
        = st.filter (fun r => decide (now - retention * 3600 ≤ r.ts))
    ∧ (db_recent retention now st room circle limit).1.length ≤ limit
    ∧ (∀ p ∈ (db_recent retention now st room circle limit).1,
        ∃ r, r ∈ st ∧ r.room = room ∧ r.circle = circle
          ∧ now - retention * 3600 ≤ r.ts ∧ p = (r.nick, r.text, r.ts))
    ∧ (db_recent retention now st room circle limit).1.Pairwise
        (fun p q => p.2.2 ≤ q.2.2) := by
  have hneg : ¬(retention ≤ 0) := not_le.mpr hret
  have hfc : ∀ r : HRec,
      (!decide (r.ts < now - retention * 3600))
        = decide (now - retention * 3600 ≤ r.ts) := by
    intro r
    by_cases h : r.ts < now - retention * 3600
    · simp [h, not_le.mpr h]
    · simp [h, not_lt.mp h]
  refine ⟨?_, ?_, ?_, ?_⟩
  · show (if retention ≤ 0 then (([] : List (String × String × Int)), st)
        else _).2 = _
    rw [if_neg hneg]
    exact List.filter_congr (fun r _ => hfc r)
  · show (if retention ≤ 0 then (([] : List (String × String × Int)), st)
        else _).1.length ≤ limit
    rw [if_neg hneg]
    simp only [List.length_reverse, List.length_map, List.length_take]
    exact min_le_left _ _
  · intro p hp
    rw [show (db_recent retention now st room circle limit)
        = (if retention ≤ 0 then (([] : List (String × String × Int)), st)
            else _) from rfl, if_neg hneg] at hp
    simp only [List.mem_reverse, List.mem_map] at hp
    obtain ⟨r, hr, hfr⟩ := hp
    have hr2 : r ∈ ((st.filter (fun r => !decide (r.ts < now - retention * 3600))).filter
        (fun r => r.room == room && r.circle == circle
          && decide (now - retention * 3600 ≤ r.ts))).insertionSort tsDesc :=
      List.Sublist.mem hr (List.take_sublist _ _)
    rw [List.mem_insertionSort] at hr2
    have hr3 := List.mem_filter.mp hr2
    have hr4 := List.mem_filter.mp hr3.1
    refine ⟨r, hr4.1, ?_, ?_, ?_, hfr.symm⟩
    · have := hr3.2
      simp only [Bool.and_eq_true, beq_iff_eq, decide_eq_true_eq] at this
      exact this.1.1
    · have := hr3.2
      simp only [Bool.and_eq_true, beq_iff_eq, decide_eq_true_eq] at this
      exact this.1.2
    · have := hr3.2
      simp only [Bool.and_eq_true, beq_iff_eq, decide_eq_true_eq] at this
      exact this.2
  · rw [show (db_recent retention now st room circle limit)
        = (if retention ≤ 0 then (([] : List (String × String × Int)), st)
            else _) from rfl, if_neg hneg]
    rw [List.pairwise_reverse]
    have hs : List.Pairwise tsDesc
        ((((st.filter (fun r => !decide (r.ts < now - retention * 3600))).filter
          (fun r => r.room == room && r.circle == circle
            && decide (now - retention * 3600 ≤ r.ts))).insertionSort
          tsDesc).take limit) :=
      List.Pairwise.sublist (List.take_sublist _ _)
        (List.sorted_insertionSort tsDesc _)
    exact List.Pairwise.map _ (fun a b hab => hab) hs

/-- Store for the C7 witness. -/
def c7store : List HRec :=
  [⟨"a", "b", "n1", "x1", 50⟩, ⟨"a", "b", "n2", "x2", 5000⟩]

/-- C7 witness: at `now = 5100` with `retentionHours = 1` the cutoff is
`1500`; the record at `ts = 50` is pruned for every key. -/
theorem db_recent_prunes_and_selects_witness :
    (0 : Int) < 1
    ∧ (db_recent 1 5100 c7store "a" "b" 50).2
        = c7store.filter (fun r => decide ((5100 : Int) - 1 * 3600 ≤ r.ts)) :=
  ⟨by decide, (db_recent_prunes_and_selects 1 5100 c7store "a" "b" 50 (by decide)).1⟩

/-- The global presence dict `room_users` (app.py:147):
`Dict[str, Dict[WebSocket, str]]`.  The inner dict is an association list
in insertion order; `none` models key absence in the outer dict. -/
abbrev Users := Key → Option (List (Conn × String))

/-- The empty presence dict. -/
def emptyUsers : Users := fun _ => none

/-- Python `d[ws] = nick` on the inner dict: upsert, keeping the insertion
position of an existing key. -/
def dictSet : List (Conn × String) → Conn → String → List (Conn × String)
  | [], c, n => [(c, n)]
  | (c2, n2) :: t, c, n =>
    if c2 = c then (c, n) :: t else (c2, n2) :: dictSet t c n

/-- Python `d.pop(ws, None)` on the inner dict. -/
def dictPop : List (Conn × String) → Conn → List (Conn × String)
  | [], _ => []
  | (c2, n2) :: t, c => if c2 = c then t else (c2, n2) :: dictPop t c

/-- Python `ws in d` on the inner dict. -/
def hasConn (m : List (Conn × String)) (c : Conn) : Bool :=
  m.any (fun p => p.1 == c)

/-- An outbound frame (§6 wire shapes: `users`, chat, `typing`). -/
inductive Msg where
  | users (us : List String) (count : Nat)
  | chat (nick text : String) (ts : Int)
  | typing (nick : String) (ty : Bool)
deriving DecidableEq

/-- The mutable state the websocket handler touches: `manager.rooms`,
`room_users` and the SQLite table. -/
structure AppState where
  rooms : Rooms
  users : Users
  store : List HRec

/-- Python `sanitize(x) or "anon"` (an empty sanitized string is falsy). -/
def orAnon (s : String) : String := if s = "" then "anon" else s

/-- `ws_square`, join branch (app.py:290-302): upsert the nickname for this
socket, then broadcast the full user list with its count. -/
def ws_square_join (fail : Conn → Bool) (st : AppState)
    (room circle : String) (c : Conn) (j : String) :
    AppState × List (Msg × List Conn) :=
  let nick := orAnon (sanitize j)
  let k := ConnectionManager.key room circle
  let m2 := dictSet ((st.users k).getD []) c nick
  let users2 := updMap st.users k (some m2)
  let ul := m2.map Prod.snd
  let bres := ConnectionManager.broadcast st.rooms room circle fail
  (⟨bres.2, users2, st.store⟩, [(Msg.users ul ul.length, bres.1)])

/-- `ws_square`, typing branch (app.py:305-313): broadcast the typing
notification verbatim; no state mutation beyond broadcast eviction. -/
def ws_square_typing (fail : Conn → Bool) (st : AppState)
    (room circle : String) (nickRaw : String) (ty : Bool) :
    AppState × List (Msg × List Conn) :=
  let nick := orAnon (sanitize nickRaw)
  let bres := ConnectionManager.broadcast st.rooms room circle fail
  (⟨bres.2, st.users, st.store⟩, [(Msg.typing nick ty, bres.1)])

/-- `ws_square`, chat branch (app.py:315-333): sanitize nick and text, drop
the frame silently if the text is empty, otherwise upsert presence, persist
the message, broadcast it, then broadcast a refreshed user list. -/
def ws_square_chat (retention now : Int) (fail : Conn → Bool) (st : AppState)
    (room circle : String) (c : Conn) (nickRaw textRaw : String) :
    AppState × List (Msg × List Conn) :=
  let nick := orAnon (sanitize nickRaw)
  let text := sanitize textRaw
  if text = "" then (st, [])
  else
    let k := ConnectionManager.key room circle
    let m2 := dictSet ((st.users k).getD []) c nick
    let users2 := updMap st.users k (some m2)
    let store2 := db_save retention st.store room circle nick text now
    let b1 := ConnectionManager.broadcast st.rooms room circle fail
    let ul := m2.map Prod.snd
    let b2 := ConnectionManager.broadcast b1.2 room circle fail
    (⟨b2.2, users2, store2⟩,
     [(Msg.chat nick text now, b1.1), (Msg.users ul ul.length, b2.1)])

/-- `ws_square`, disconnect handling (app.py:334-347): deregister the socket
from the connection manager; if it has a presence entry, pop it and, only
when the room still has registered members, broadcast the refreshed user
list. -/
def ws_square_disconnect (fail : Conn → Bool) (st : AppState)
    (room circle : String) (c : Conn) : AppState × List (Msg × List Conn) :=
  let k := ConnectionManager.key room circle
  let rooms1 := ConnectionManager.disconnect st.rooms room circle c
  match st.users k with
  | none => (⟨rooms1, st.users, st.store⟩, [])
  | some m =>
    if hasConn m c then
      let m2 := dictPop m c
      let users2 := updMap st.users k (some m2)
      if (rooms1 k).getD [] = [] then (⟨rooms1, users2, st.store⟩, [])
      else
        let ul := m2.map Prod.snd
        let bres := ConnectionManager.broadcast rooms1 room circle fail
        (⟨bres.2, users2, st.store⟩, [(Msg.users ul ul.length, bres.1)])
    else (⟨rooms1, st.users, st.store⟩, [])

/-- C9: an inbound chat frame whose text sanitizes to the empty string is
silently dropped: the registry, the presence map and the history store are
left unchanged, nothing is broadcast, and no error is surfaced (the handler
returns normally). -/
theorem empty_chat_frame_dropped (retention now : Int) (fail : Conn → Bool)
    (st : AppState) (room circle : String) (c : Conn) (nickRaw textRaw : String)
    (h : sanitize textRaw = "") :
    ws_square_chat retention now fail st room circle c nickRaw textRaw
      = (st, []) := by
  simp [ws_square_chat, h]

/-- State for the C9 witness. -/
def stW9 : AppState := ⟨emptyRooms, emptyUsers, []⟩

/-- C9 witness: a frame whose text is whitespace only is dropped without any
effect. -/
theorem empty_chat_frame_dropped_witness :
    sanitize "   " = ""
    ∧ ws_square_chat 0 5 (fun _ => false) stW9 "r" "c" 0 "alice" "   "
        = (stW9, []) :=
  ⟨by decide,
   empty_chat_frame_dropped 0 5 (fun _ => false) stW9 "r" "c" 0 "alice" "   "
     (by decide)⟩

lemma updMap_some_isSome {α : Type} (m : Key → Option α) (k : Key) (v : α)
    (k2 : Key) (h : (m k2).isSome = true) :
    ((updMap m k (some v)) k2).isSome = true := by
  unfold updMap
  by_cases hk : k2 = k
  · simp [hk]
  · simpa [hk] using h

/-- C10 (implicit): the presence map's per-key entries are never deleted by
any handler branch — the set of keys with a presence entry only grows.  In
particular, after the last connection for a key disconnects, the presence
map still contains that key mapped to the empty inner dict (only the
per-connection entry was popped), even though the connection manager has
removed its entry for that key. -/
theorem presence_keys_never_deleted :
    (∀ fail st room circle c j k2, (AppState.users st k2).isSome = true →
        ((ws_square_join fail st room circle c j).1.users k2).isSome = true)
    ∧ (∀ fail st room circle nickRaw ty k2,
        (AppState.users st k2).isSome = true →
        ((ws_square_typing fail st room circle nickRaw ty).1.users k2).isSome
          = true)
    ∧ (∀ retention now fail st room circle c nickRaw textRaw k2,
        (AppState.users st k2).isSome = true →
        ((ws_square_chat retention now fail st room circle c
            nickRaw textRaw).1.users k2).isSome = true)
    ∧ (∀ fail st room circle c k2, (AppState.users st k2).isSome = true →
        ((ws_square_disconnect fail st room circle c).1.users k2).isSome
          = true)
    ∧ (∀ fail st room circle c n,
        AppState.rooms st (ConnectionManager.key room circle) = some [c] →
        AppState.users st (ConnectionManager.key room circle) = some [(c, n)] →
        (ws_square_disconnect fail st room circle c).1.users
            (ConnectionManager.key room circle) = some []
        ∧ (ws_square_disconnect fail st room circle c).1.rooms
            (ConnectionManager.key room circle) = none) := by
  refine ⟨?_, ?_, ?_, ?_, ?_⟩
  · intro fail st room circle c j k2 h
    exact updMap_some_isSome _ _ _ _ h
  · intro fail st room circle nickRaw ty k2 h
    exact h
  · intro retention now fail st room circle c nickRaw textRaw k2 h
    by_cases ht : sanitize textRaw = ""
    · simpa [ws_square_chat, ht] using h
    · simp only [ws_square_chat, if_neg ht]
      exact updMap_some_isSome _ _ _ _ h
  · intro fail st room circle c k2 h
    cases hu : st.users (ConnectionManager.key room circle) with
    | none =>
      simp only [ws_square_disconnect, hu]
      exact h
    | some m =>
      by_cases hhc : hasConn m c = true
      · by_cases hre : ((ConnectionManager.disconnect st.rooms room circle c)
            (ConnectionManager.key room circle)).getD [] = []
        · simp only [ws_square_disconnect, hu, hhc, hre, if_true]
          exact updMap_some_isSome _ _ _ _ h
        · simp only [ws_square_disconnect, hu, hhc, if_true, if_neg hre]
          exact updMap_some_isSome _ _ _ _ h
      · have hhc2 : hasConn m c = false := by
          cases hx : hasConn m c
          · rfl
          · exact absurd hx hhc
        simp only [ws_square_disconnect, hu, hhc2, Bool.false_eq_true, if_false]
        exact h
  · intro fail st room circle c n hrooms husers
    have hrooms1 : ConnectionManager.disconnect st.rooms room circle c
        (ConnectionManager.key room circle) = none := by
      unfold ConnectionManager.disconnect
      rw [hrooms]
      simp [updMap]
    constructor
    · simp [ws_square_disconnect, husers, hrooms1, hasConn, dictPop, updMap]
    · simp [ws_square_disconnect, husers, hrooms1, hasConn, dictPop, updMap]

/-- State for the C10 witness: one registered, joined connection. -/
def stW10 : AppState :=
  ⟨updMap emptyRooms (ConnectionManager.key "central" "music") (some [0]),
   updMap emptyUsers (ConnectionManager.key "central" "music")
     (some [(0, "ann")]), []⟩

/-- C10 witness: the sole member disconnects; the presence map keeps the key
with an empty inner dict while the connection manager drops its entry. -/
theorem presence_keys_never_deleted_witness :
    (ws_square_disconnect (fun _ => false) stW10 "central" "music" 0).1.users
        (ConnectionManager.key "central" "music") = some []
    ∧ (ws_square_disconnect (fun _ => false) stW10 "central" "music" 0).1.rooms
        (ConnectionManager.key "central" "music") = none :=
  presence_keys_never_deleted.2.2.2.2 (fun _ => false) stW10 "central" "music"
    0 "ann" (by decide) (by decide)

lemma notMem_disconnect_self (rm : Rooms) (room circle : String) (c : Conn)
    (hnd : ((rm (ConnectionManager.key room circle)).getD []).Nodup) :
    c ∉ ((ConnectionManager.disconnect rm room circle c)
        (ConnectionManager.key room circle)).getD [] := by
  unfold ConnectionManager.disconnect
  cases hrk : rm (ConnectionManager.key room circle) with
  | none =>
    show c ∉ (rm (ConnectionManager.key room circle)).getD []
    rw [hrk]
    simp
  | some l =>
    rw [hrk] at hnd
    simp only [Option.getD_some] at hnd
    by_cases hc : c ∈ l
    · simp only [hc, if_true]
      by_cases hl2 : l.erase c = []
      · simp [hl2, updMap]
      · simp only [hl2, if_false, updMap, if_pos rfl, Option.getD_some]
        exact hnd.not_mem_erase
    · simp only [hc, if_false]
      rw [hrk]
      simp only [Option.getD_some]
      exact hc

/-- C2 (counterexample): connection `0` is registered under
`("central", "music")` together with `1`, but never joined, so it has no
presence entry.  On its disconnect the room still has the registered member
`1`, yet the handler broadcasts nothing — the `users` refresh is guarded by
the presence check `websocket in room_users[key]`. -/
def stW2 : AppState :=
  ⟨updMap emptyRooms (ConnectionManager.key "central" "music") (some [0, 1]),
   updMap emptyUsers (ConnectionManager.key "central" "music")
     (some [(1, "bob")]), []⟩

/-- C2 (counterexample): after `0` disconnects, the member `1` is still
registered (so the claim demands a `users` broadcast), but the handler emits
no message at all. -/
theorem disconnect_no_broadcast_cex :
    ((ConnectionManager.disconnect stW2.rooms "central" "music" 0)
        (ConnectionManager.key "central" "music")).getD [] = [1]
    ∧ (ws_square_disconnect (fun _ => false) stW2 "central" "music" 0).2
        = [] := by
  decide

/-- C2 (amended): on transport disconnect of a connection `c` registered
under key `k` the handler deregisters `c` from the connection manager
(`c` is no longer a member, given the members were distinct).  If `c` has a
presence entry under `k`, that entry is popped and — exactly when the room
still has at least one registered member after the deregistration — a
refreshed `users` message with the remaining nick list and its count is
broadcast to `k`; when no members remain, nothing is broadcast.  If `c` has
no presence entry (it never joined or chatted), no broadcast is sent even
when other members remain, and the presence map is untouched. -/
theorem disconnect_cleanup (fail : Conn → Bool) (st : AppState)
    (room circle : String) (c : Conn) :
    (((st.rooms (ConnectionManager.key room circle)).getD []).Nodup →
      c ∉ (((ws_square_disconnect fail st room circle c).1.rooms
          (ConnectionManager.key room circle)).getD []))
    ∧ (∀ m, st.users (ConnectionManager.key room circle) = some m →
        hasConn m c = true →
        (ws_square_disconnect fail st room circle c).1.users
            (ConnectionManager.key room circle) = some (dictPop m c)
        ∧ (((ConnectionManager.disconnect st.rooms room circle c)
              (ConnectionManager.key room circle)).getD [] ≠ [] →
            (ws_square_disconnect fail st room circle c).2
              = [(Msg.users ((dictPop m c).map Prod.snd)
                    ((dictPop m c).map Prod.snd).length,
                  (ConnectionManager.broadcast
                    (ConnectionManager.disconnect st.rooms room circle c)
                    room circle fail).1)])
        ∧ (((ConnectionManager.disconnect st.rooms room circle c)
              (ConnectionManager.key room circle)).getD [] = [] →
            (ws_square_disconnect fail st room circle c).2 = []))
    ∧ ((∀ m, st.users (ConnectionManager.key room circle) = some m →
          hasConn m c = false) →
        (ws_square_disconnect fail st room circle c).2 = []
        ∧ (ws_square_disconnect fail st room circle c).1.users = st.users) := by
  refine ⟨?_, ?_, ?_⟩
  · intro hnd
    have h1 := notMem_disconnect_self st.rooms room circle c hnd
    cases hu : st.users (ConnectionManager.key room circle) with
    | none =>
      simp only [ws_square_disconnect, hu]
      exact h1
    | some m =>
      by_cases hhc : hasConn m c = true
      · by_cases hre : ((ConnectionManager.disconnect st.rooms room circle c)
            (ConnectionManager.key room circle)).getD [] = []
        · simp only [ws_square_disconnect, hu, hhc, hre, if_true]
          simp
        · simp only [ws_square_disconnect, hu, hhc, if_true, if_neg hre,
            ConnectionManager.broadcast]
          exact notMem_foldl_disconnect room circle c _ _ h1
      · have hhc2 : hasConn m c = false := by
          cases hx : hasConn m c
          · rfl
          · exact absurd hx hhc
        simp only [ws_square_disconnect, hu, hhc2, Bool.false_eq_true, if_false]
        exact h1
  · intro m hm hc2
    refine ⟨?_, ?_, ?_⟩
    · by_cases hre : ((ConnectionManager.disconnect st.rooms room circle c)
          (ConnectionManager.key room circle)).getD [] = []
      · simp only [ws_square_disconnect, hm, hc2, hre, if_true]
        simp [updMap]
      · simp only [ws_square_disconnect, hm, hc2, if_true, if_neg hre]
        simp [updMap]
    · intro hne
      simp only [ws_square_disconnect, hm, hc2, if_true, if_neg hne]
    · intro hre
      simp only [ws_square_disconnect, hm, hc2, hre, if_true]
  · intro hno
    cases hu : st.users (ConnectionManager.key room circle) with
    | none =>
      constructor
      · simp only [ws_square_disconnect, hu]
      · simp only [ws_square_disconnect, hu]
    | some m =>
      have hhc2 := hno m hu
      constructor
      · simp only [ws_square_disconnect, hu, hhc2, Bool.false_eq_true, if_false]
      · simp only [ws_square_disconnect, hu, hhc2, Bool.false_eq_true, if_false]

/-- State for the C2 witness: two registered, joined connections. -/
def stW2b : AppState :=
  ⟨updMap emptyRooms (ConnectionManager.key "central" "music") (some [0, 1]),
   updMap emptyUsers (ConnectionManager.key "central" "music")
     (some [(0, "alice"), (1, "bob")]), []⟩

/-- C2 witness: `alice` (connection `0`) disconnects; `bob` remains, so a
`users` broadcast with the remaining nick list `["bob"]` and count 1 is
emitted. -/
theorem disconnect_cleanup_witness :
    hasConn [(0, "alice"), (1, "bob")] 0 = true
    ∧ (ws_square_disconnect (fun _ => false) stW2b "central" "music" 0).2
        = [(Msg.users ((dictPop [(0, "alice"), (1, "bob")] 0).map Prod.snd)
              ((dictPop [(0, "alice"), (1, "bob")] 0).map Prod.snd).length,
            (ConnectionManager.broadcast
              (ConnectionManager.disconnect stW2b.rooms "central" "music" 0)
              "central" "music" (fun _ => false)).1)] :=
  ⟨by decide,
   ((disconnect_cleanup (fun _ => false) stW2b "central" "music" 0).2.1
      [(0, "alice"), (1, "bob")] (by decide) (by decide)).2.1 (by decide)⟩
